import Mathlib

/-!
# Verification of the GPdoemd analytic marginalisation core

Shallow embedding, over exact rationals (and reals for calculus facts), of

* `GPdoemd/marginal/analytic.py` — class `Analytic`: parameter-covariance
  estimation (`compute_param_covar`), delta-method prediction (`__call__`),
  the `Sigma` property, the Jacobian stack `d_mu_d_p` and the unimplemented
  second-order hooks;
* `GPdoemd/models/vanilla_gp_model.py` — the `kern_x` / `kern_p` properties
  and `set_kernels` of `VanillaGPModel`;
* `GPdoemd/case_studies/analytic/bff1983.py` — candidate model `M5`.

Numpy arrays of statically known shape are embedded as Mathlib matrices over
`ℚ`; the dynamically-shaped value passed to the `Sigma` property setter is
embedded as an untyped `PyVal`.  Fallible numpy operations (`np.linalg.inv`,
`np.matmul` with `None`, failed `assert`s) are embedded with `Except`.
-/

namespace GPdoemd

open Matrix

/-- Runtime errors surfaced by the embedded Python/numpy code paths:
`np.linalg.LinAlgError` (raised by `np.linalg.inv` on a singular matrix),
`TypeError` (raised e.g. by `np.matmul(None, A)`), and a failed `assert`. -/
inductive NpErr where
  | singularMatrix
  | typeError
  | assertionError
deriving DecidableEq

/-- Untyped Python value, as far as the `Sigma` property setter of `Analytic`
inspects it: a numpy array carries its shape and (row-major) flat data;
anything else (`float`, `list`, `None`, ...) only matters through not being
an `np.ndarray`. -/
inductive PyVal where
  | npArray (shape : List Nat) (data : List ℚ)
  | notAnArray
deriving DecidableEq

/-- Embedding of `np.linalg.inv`: fails with `LinAlgError` on an exactly
singular matrix, otherwise returns the inverse (`det⁻¹ • adjugate`, which
agrees with Mathlib's `A⁻¹` for invertible `A`). -/
def npInv {n : Nat} (A : Matrix (Fin n) (Fin n) ℚ) :
    Except NpErr (Matrix (Fin n) (Fin n) ℚ) :=
  if A.det = 0 then Except.error NpErr.singularMatrix
  else Except.ok (A.det⁻¹ • A.adjugate)

/-- The `meas_noise_var` argument of `compute_param_covar`: a plain Python
scalar (`int`/`float`), a length-`E` numpy vector of per-output variances, or
a full `E × E` noise covariance matrix. -/
inductive NoiseModel (E : Nat) where
  | scalar (v : ℚ)
  | vec (v : Fin E → ℚ)
  | mat (V : Matrix (Fin E) (Fin E) ℚ)

/-- Noise model after the scalar-broadcast step of `compute_param_covar`
(`meas_noise_var = np.array([meas_noise_var] * E)`): only a vector or a
matrix remains. -/
inductive NoiseModelN (E : Nat) where
  | vecN (v : Fin E → ℚ)
  | matN (V : Matrix (Fin E) (Fin E) ℚ)

/-- Lines 66-67 of `analytic.py`: a scalar noise variance is broadcast to a
constant length-`E` vector; vectors and matrices pass through unchanged. -/
def normalizeNoise {E : Nat} : NoiseModel E → NoiseModelN E
  | NoiseModel.scalar v => NoiseModelN.vecN (fun _ => v)
  | NoiseModel.vec v => NoiseModelN.vecN v
  | NoiseModel.mat V => NoiseModelN.matN V

/-- Mutable state of an `Analytic` marginaliser.  `call x` stands for
`model.call(x, param_mean, grad=True)`: the length-`E` output vector and the
`E × D` Jacobian with respect to the parameters, both at the fixed parameter
mean.  `sigma` is the `_Sigma` attribute: `none` while the attribute has not
been assigned (fresh object). -/
structure AnalyticState (E D : Nat) (X : Type) where
  call : X → (Fin E → ℚ) × Matrix (Fin E) (Fin D) ℚ
  sigma : Option (Matrix (Fin D) (Fin D) ℚ)

/-- Slice `dmu[:, e]` of the stacked Jacobian array built by `d_mu_d_p`
(lines 46-50 of `analytic.py`): the `N × D` matrix whose row `n` is the
Jacobian row of output `e` at the `n`-th training point. -/
def dmuStack {E D : Nat} {X : Type}
    (call : X → (Fin E → ℚ) × Matrix (Fin E) (Fin D) ℚ) (Xdata : List X)
    (e : Fin E) : Matrix (Fin Xdata.length) (Fin D) ℚ :=
  fun n d => (call (Xdata.get n)).2 e d

/-- The accumulation loop of lines 76-90 of `analytic.py` building the
inverse covariance (information) matrix `iA`.  `isVec` records whether
`meas_noise_var.ndim == 1` (the `continue` that skips all cross-output
terms); `W` is `imeasvar`; the inner Python loop `for e2 in range(e1+1, E)`
is rendered as a pass over all of `range(E)` guarded by `e1 < e2`. -/
def iALoop {E D N : Nat} (isVec : Bool) (W : Matrix (Fin E) (Fin E) ℚ)
    (dmu : Fin E → Matrix (Fin N) (Fin D) ℚ) : Matrix (Fin D) (Fin D) ℚ :=
  (List.finRange E).foldl (fun iA e1 =>
    let iA1 := iA + W e1 e1 • ((dmu e1)ᵀ * dmu e1)
    if isVec then iA1
    else (List.finRange E).foldl (fun iA2 e2 =>
      if e1 < e2 then
        if W e1 e2 = 0 then iA2
        else iA2 + W e1 e2 • ((dmu e1)ᵀ * dmu e2)
                 + W e2 e1 • ((dmu e2)ᵀ * dmu e1)
      else iA2) iA1) 0

/-- Information matrix in the vector-noise case, written as the spec writes
it: a sum over outputs of `(1 / var_e) · dmu[e]ᵀ · dmu[e]`, with no
cross-output terms. -/
def iAvecSpec {E D : Nat} {X : Type}
    (call : X → (Fin E → ℚ) × Matrix (Fin E) (Fin D) ℚ) (Xdata : List X)
    (v : Fin E → ℚ) : Matrix (Fin D) (Fin D) ℚ :=
  ∑ e : Fin E,
    (1 / v e) • ((dmuStack call Xdata e)ᵀ * dmuStack call Xdata e)

/-- Information matrix in the full-matrix-noise case, written as the claim
writes it: diagonal terms for every output, plus, for every pair `e1 < e2`
whose off-diagonal inverse-noise weight `W e1 e2` is non-zero, the two cross
terms `W e1 e2 · dmu[e1]ᵀ·dmu[e2]` and `W e2 e1 · dmu[e2]ᵀ·dmu[e1]`. -/
def iAmatSpec {E D : Nat} {X : Type}
    (call : X → (Fin E → ℚ) × Matrix (Fin E) (Fin D) ℚ) (Xdata : List X)
    (W : Matrix (Fin E) (Fin E) ℚ) : Matrix (Fin D) (Fin D) ℚ :=
  ∑ e1 : Fin E,
    (W e1 e1 • ((dmuStack call Xdata e1)ᵀ * dmuStack call Xdata e1)
      + ∑ e2 ∈ Finset.univ.filter (fun e2 => e1 < e2),
          (if W e1 e2 = 0 then 0
           else W e1 e2 • ((dmuStack call Xdata e1)ᵀ * dmuStack call Xdata e2)
              + W e2 e1 • ((dmuStack call Xdata e2)ᵀ * dmuStack call Xdata e1)))

/-- Body of `compute_param_covar` (lines 61-92 of `analytic.py`) up to and
including the final `np.linalg.inv(iA)`, as a pure function of the inputs.
Order of effects follows the source: the scalar broadcast, then the noise
inversion (`np.diag(1./v)` needs no inversion and cannot fail; `np.linalg.inv`
of a matrix noise model can), then the Jacobian stack `d_mu_d_p` — whose
`assert dmu.ndim == 3` fails when `Xdata` is empty, because
`np.array([])` has `ndim == 1` — then the accumulation loop and the final
inversion. -/
def computeParamCovar {E D : Nat} {X : Type}
    (call : X → (Fin E → ℚ) × Matrix (Fin E) (Fin D) ℚ) (Xdata : List X)
    (noise : NoiseModel E) : Except NpErr (Matrix (Fin D) (Fin D) ℚ) :=
  match normalizeNoise noise with
  | NoiseModelN.vecN v =>
      if Xdata.length = 0 then Except.error NpErr.assertionError
      else npInv (iALoop true (Matrix.diagonal fun e => 1 / v e)
        (dmuStack call Xdata))
  | NoiseModelN.matN V =>
      match npInv V with
      | Except.error e => Except.error e
      | Except.ok W =>
          if Xdata.length = 0 then Except.error NpErr.assertionError
          else npInv (iALoop false W (dmuStack call Xdata))

/-- Row-major flattening of a matrix, matching how a numpy `a × b` array
stores its data. -/
def matFlatten {a b : Nat} (M : Matrix (Fin a) (Fin b) ℚ) : List ℚ :=
  (List.range (a * b)).map fun k =>
    if h : k / b < a ∧ k % b < b then M ⟨k / b, h.1⟩ ⟨k % b, h.2⟩ else 0

/-- View of a matrix as the untyped Python value that reaches the `Sigma`
property setter. -/
def matToPyVal {a b : Nat} (M : Matrix (Fin a) (Fin b) ℚ) : PyVal :=
  PyVal.npArray [a, b] (matFlatten M)

/-- Reading a `D × D` matrix back out of the flat data of a numpy array. -/
def pyValToMat (D : Nat) (data : List ℚ) : Matrix (Fin D) (Fin D) ℚ :=
  fun i j => data.getD (i.val * D + j.val) 0

/-- The `Sigma` property setter (lines 39-44 of `analytic.py`):
`assert isinstance(value, np.ndarray)` and `assert value.shape == (D, D)`,
then store the value. -/
def sigmaSetter (D : Nat) (v : PyVal) :
    Except NpErr (Matrix (Fin D) (Fin D) ℚ) :=
  match v with
  | PyVal.npArray shape data =>
      if shape = [D, D] then Except.ok (pyValToMat D data)
      else Except.error NpErr.assertionError
  | PyVal.notAnArray => Except.error NpErr.assertionError

/-- Calling `compute_param_covar` on an `Analytic` object: on success the
result of `np.linalg.inv(iA)` is stored through the `Sigma` setter; when an
exception propagates out, the object is left unchanged. -/
def computeRun {E D : Nat} {X : Type} (st : AnalyticState E D X)
    (Xdata : List X) (noise : NoiseModel E) :
    Option NpErr × AnalyticState E D X :=
  match computeParamCovar st.call Xdata noise with
  | Except.error e => (some e, st)
  | Except.ok S =>
      match sigmaSetter D (matToPyVal S) with
      | Except.error e => (some e, st)
      | Except.ok S2 => (none, { st with sigma := some S2 })

/-- Effectful map over a list, stopping at the first raised exception — the
shape of a Python `for` loop whose body may raise. -/
def mapExcept {α β : Type} (f : α → Except NpErr β) :
    List α → Except NpErr (List β)
  | [] => Except.ok []
  | a :: as =>
    match f a with
    | Except.error e => Except.error e
    | Except.ok b =>
      match mapExcept f as with
      | Except.error e => Except.error e
      | Except.ok bs => Except.ok (b :: bs)

/-- The raw per-point propagated covariance of line 110 of `analytic.py`:
`np.matmul(dmu[n], np.matmul(Sigma, dmu[n].T))`. -/
def sRaw {E D : Nat} {X : Type}
    (call : X → (Fin E → ℚ) × Matrix (Fin E) (Fin D) ℚ)
    (Sg : Matrix (Fin D) (Fin D) ℚ) (x : X) : Matrix (Fin E) (Fin E) ℚ :=
  (call x).2 * (Sg * ((call x).2)ᵀ)

/-- The diagonal clamp of lines 112-113 of `analytic.py`:
`S[:,e,e] = np.maximum(1e-15, S[:,e,e])`, entry-wise on one point's `E × E`
covariance.  Off-diagonal entries are untouched. -/
def clampDiag {E : Nat} (S : Matrix (Fin E) (Fin E) ℚ) :
    Matrix (Fin E) (Fin E) ℚ :=
  fun e1 e2 => if e1 = e2 then max ((1 : ℚ) / 10 ^ 15) (S e1 e2) else S e1 e2

/-- A matrix rendered as the nested list a caller of `predict` observes. -/
def matToLists {E : Nat} (S : Matrix (Fin E) (Fin E) ℚ) : List (List ℚ) :=
  (List.finRange E).map fun e1 => (List.finRange E).map fun e2 => S e1 e2

/-- The stacked mean matrix `M` of lines 100-105 of `analytic.py`, as an
`N × E` nested list. -/
def predMeans {E D : Nat} {X : Type}
    (call : X → (Fin E → ℚ) × Matrix (Fin E) (Fin D) ℚ) (xnew : List X) :
    List (List ℚ) :=
  xnew.map fun x => (List.finRange E).map fun e => (call x).1 e

/-- `Analytic.__call__` (lines 95-114 of `analytic.py`).  Means and Jacobians
are evaluated first; the covariance loop reads the `Sigma` property once per
query point, so with an unset covariance it raises `TypeError`
(`np.matmul(None, ...)`) at the first point — and on an empty query list it
never runs, returning empty arrays. -/
def analyticPredict {E D : Nat} {X : Type} (st : AnalyticState E D X)
    (xnew : List X) : Except NpErr (List (List ℚ) × List (List (List ℚ))) :=
  match mapExcept (fun x =>
      match st.sigma with
      | none => Except.error NpErr.typeError
      | some Sg => Except.ok (clampDiag (sRaw st.call Sg x))) xnew with
  | Except.error e => Except.error e
  | Except.ok Ss => Except.ok (predMeans st.call xnew, Ss.map matToLists)

/-- The Python class object `NotImplementedError` seen as a value. -/
inductive PyExcClass where
  | notImplementedError
deriving DecidableEq

/-- Outcome of calling one of the second-order hooks: the Python function
either returns a value normally or raises an exception. -/
inductive HookOutcome where
  | returned (c : PyExcClass)
  | raised (c : PyExcClass)
deriving DecidableEq

/-- Line 52-53 of `analytic.py`: `def d2_mu_d_p2(self, gp, X): return
NotImplementedError` — the exception class is returned, not raised. -/
def d2_mu_d_p2 {γ ξ : Type} (gp : γ) (X : ξ) : HookOutcome :=
  HookOutcome.returned PyExcClass.notImplementedError

/-- Line 55-56 of `analytic.py`: `d_s2_d_p` likewise returns the exception
class. -/
def d_s2_d_p {γ ξ : Type} (gp : γ) (X : ξ) : HookOutcome :=
  HookOutcome.returned PyExcClass.notImplementedError

/-- Line 58-59 of `analytic.py`: `d2_s2_d_p2` likewise returns the exception
class. -/
def d2_s2_d_p2 {γ ξ : Type} (gp : γ) (X : ξ) : HookOutcome :=
  HookOutcome.returned PyExcClass.notImplementedError

/-- Python `AttributeError`, raised on reading a never-assigned attribute. -/
inductive PyAttrErr where
  | attributeError
deriving DecidableEq

/-- Attribute state of a `VanillaGPModel` relevant to its kernel properties:
`kernXAttr` is the `_kern_x` attribute (`none` while never assigned),
`kernPAttr` the `_kern_p` attribute.  `Kc` is the type of kernel classes
(subclasses of `GPy.kern.Kern`, so the setter's `issubclass` assert holds). -/
structure VanillaGPState (Kc : Type) where
  kernXAttr : Option Kc
  kernPAttr : Option Kc

/-- A freshly constructed `VanillaGPModel`: neither kernel attribute set. -/
def freshVanilla (Kc : Type) : VanillaGPState Kc := ⟨none, none⟩

/-- The `kern_x` property getter (lines 46-48 of `vanilla_gp_model.py`):
`None` while `_kern_x` is absent, otherwise `_kern_x`. -/
def kern_x_get {Kc : Type} (st : VanillaGPState Kc) : Option Kc :=
  match st.kernXAttr with
  | none => none
  | some v => some v

/-- The `kern_p` property getter (lines 56-58 of `vanilla_gp_model.py`):
`return None if not hasattr(self,'_kern_p') else self._kern_x` — the
presence check is on `_kern_p`, but the value read is `_kern_x`, which
raises `AttributeError` when `_kern_p` exists and `_kern_x` does not. -/
def kern_p_get {Kc : Type} (st : VanillaGPState Kc) :
    Except PyAttrErr (Option Kc) :=
  match st.kernPAttr with
  | none => Except.ok none
  | some _ =>
    match st.kernXAttr with
    | none => Except.error PyAttrErr.attributeError
    | some v => Except.ok (some v)

/-- The `kern_x` property setter (lines 49-53): a `None` value is ignored, a
kernel class is stored in `_kern_x`. -/
def kern_x_set {Kc : Type} (st : VanillaGPState Kc) (value : Option Kc) :
    VanillaGPState Kc :=
  match value with
  | none => st
  | some v => { st with kernXAttr := some v }

/-- The `kern_p` property setter (lines 59-63): a `None` value is ignored, a
kernel class is stored in `_kern_p`. -/
def kern_p_set {Kc : Type} (st : VanillaGPState Kc) (value : Option Kc) :
    VanillaGPState Kc :=
  match value with
  | none => st
  | some v => { st with kernPAttr := some v }

/-- Lines 65-67 of `vanilla_gp_model.py`: `set_kernels` assigns both
properties through their setters. -/
def set_kernels {Kc : Type} (st : VanillaGPState Kc)
    (kern_x kern_p : Option Kc) : VanillaGPState Kc :=
  kern_p_set (kern_x_set st kern_x) kern_p

/-- Candidate model `M5.__call__` with `grad=True` (lines 145-159 of
`bff1983.py`), over any field so the same definition serves exact rational
evaluation and real-analytic differentiation.  Components of `p` are, in
source order, `K1, K2, K3, K4, Keq`; the single output (`E = 1`) comes with
its `1 × 5` Jacobian row. -/
def M5call {K : Type} [Field K] (x : Fin 3 → K) (p : Fin 5 → K) :
    (Fin 1 → K) × Matrix (Fin 1) (Fin 5) K :=
  let x1 := x 0
  let x2 := x 1
  let x3 := x 2
  let nom := x1 * x2 ^ 2 - x3 / p 4
  let dnm := p 0 + p 1 * x2 + p 2 * x1 * x2 + p 3 * x3
  let y := nom / dnm ^ 2
  let dK1 := -2 * y / dnm
  (fun _ => y, fun _ j =>
    match j with
    | 0 => dK1
    | 1 => dK1 * x2
    | 2 => dK1 * x1 * x2
    | 3 => dK1 * x3
    | 4 => x3 / (p 4 * dnm) ^ 2)

/-- The design point `x = [20., 225., 7.]` of the gradient-fidelity
scenario.  Lives in `ℝ` (not executable) because it only appears in
differentiability statements; exact evaluation of `M5call` happens over
`ℚ`. -/
noncomputable def x0BFF : Fin 3 → ℝ
  | 0 => 20
  | 1 => 225
  | 2 => 7

/-- The parameter vector `p = [1704., 4.25, 0.241, 444.6, 1.7e-5]` of the
gradient-fidelity scenario, as exact rationals inside `ℝ`. -/
noncomputable def p0BFF : Fin 5 → ℝ
  | 0 => 1704
  | 1 => 17 / 4
  | 2 => 241 / 1000
  | 3 => 2223 / 5
  | 4 => 17 / 1000000

/-- A concrete single-output, single-parameter model function with Jacobian
constantly `1`, used to instantiate universally quantified theorems. -/
def callU : Unit → (Fin 1 → ℚ) × Matrix (Fin 1) (Fin 1) ℚ :=
  fun _ => (fun _ => 0, fun _ _ => 1)

/-- A concrete model function with zero parameters (`D = 0`); its `1 × 0`
Jacobian is (vacuously) the zero matrix. -/
def callD0 : Unit → (Fin 1 → ℚ) × Matrix (Fin 1) (Fin 0) ℚ :=
  fun _ => (fun _ => 0, fun _ j => j.elim0)

/-- A concrete model function whose Jacobian is the `1 × 1` zero matrix at
every design point. -/
def callZ : Unit → (Fin 1 → ℚ) × Matrix (Fin 1) (Fin 1) ℚ :=
  fun _ => (fun _ => 0, 0)

/-! ## Helper lemmas -/

/-- Folding a pure accumulation step over a list adds up the per-element
contributions. -/
theorem foldl_step_sum {M α : Type} [AddCommMonoid M] (g : M → α → M)
    (G : α → M) (hg : ∀ acc x, g acc x = acc + G x) :
    ∀ (l : List α) (a : M), List.foldl g a l = a + (l.map G).sum
  | [], _ => by simp
  | x :: xs, a => by
    rw [List.foldl_cons, foldl_step_sum g G hg xs, hg]
    simp [add_assoc]

/-- Summing a function mapped over `List.finRange` is the `Finset` sum. -/
theorem finRange_map_sum {M : Type} [AddCommMonoid M] {n : Nat}
    (f : Fin n → M) : ((List.finRange n).map f).sum = ∑ i, f i :=
  (Fin.sum_univ_def f).symm

/-- The vector-noise pass of the information-matrix loop is the plain sum of
diagonal terms: the `continue` skips every cross-output term. -/
theorem iALoop_vec_eq {E D N : Nat} (W : Matrix (Fin E) (Fin E) ℚ)
    (dmu : Fin E → Matrix (Fin N) (Fin D) ℚ) :
    iALoop true W dmu = ∑ e, W e e • ((dmu e)ᵀ * dmu e) := by
  unfold iALoop
  rw [foldl_step_sum _ (fun e1 => W e1 e1 • ((dmu e1)ᵀ * dmu e1)) ?_,
    finRange_map_sum]
  · rw [zero_add]
  · intro acc x
    rfl

/-- The inner Python loop `for e2 in range(e1+1, E)` accumulates exactly the
guarded cross terms for the pairs `e1 < e2`. -/
theorem iALoop_inner_eq {E D N : Nat} (W : Matrix (Fin E) (Fin E) ℚ)
    (dmu : Fin E → Matrix (Fin N) (Fin D) ℚ) (e1 : Fin E)
    (a : Matrix (Fin D) (Fin D) ℚ) :
    (List.finRange E).foldl (fun iA2 e2 =>
      if e1 < e2 then
        if W e1 e2 = 0 then iA2
        else iA2 + W e1 e2 • ((dmu e1)ᵀ * dmu e2)
                 + W e2 e1 • ((dmu e2)ᵀ * dmu e1)
      else iA2) a
    = a + ∑ e2 ∈ Finset.univ.filter (fun e2 => e1 < e2),
        (if W e1 e2 = 0 then 0
         else W e1 e2 • ((dmu e1)ᵀ * dmu e2)
            + W e2 e1 • ((dmu e2)ᵀ * dmu e1)) := by
  rw [foldl_step_sum _ (fun e2 =>
      if e1 < e2 then
        (if W e1 e2 = 0 then 0
         else W e1 e2 • ((dmu e1)ᵀ * dmu e2)
            + W e2 e1 • ((dmu e2)ᵀ * dmu e1))
      else 0) ?_, finRange_map_sum, Finset.sum_filter]
  intro acc x
  by_cases h1 : e1 < x
  · by_cases h2 : W e1 x = 0 <;> simp [h1, h2, add_assoc]
  · simp [h1]

/-- The matrix-noise pass of the information-matrix loop equals the sum of
diagonal terms plus, for each pair `e1 < e2` with `W e1 e2 ≠ 0`, the two
cross terms. -/
theorem iALoop_mat_eq {E D N : Nat} (W : Matrix (Fin E) (Fin E) ℚ)
    (dmu : Fin E → Matrix (Fin N) (Fin D) ℚ) :
    iALoop false W dmu
    = ∑ e1, (W e1 e1 • ((dmu e1)ᵀ * dmu e1)
        + ∑ e2 ∈ Finset.univ.filter (fun e2 => e1 < e2),
            (if W e1 e2 = 0 then 0
             else W e1 e2 • ((dmu e1)ᵀ * dmu e2)
                + W e2 e1 • ((dmu e2)ᵀ * dmu e1))) := by
  unfold iALoop
  rw [foldl_step_sum _ (fun e1 => W e1 e1 • ((dmu e1)ᵀ * dmu e1)
      + ∑ e2 ∈ Finset.univ.filter (fun e2 => e1 < e2),
          (if W e1 e2 = 0 then 0
           else W e1 e2 • ((dmu e1)ᵀ * dmu e2)
              + W e2 e1 • ((dmu e2)ᵀ * dmu e1))) ?_, finRange_map_sum]
  · simp
  · intro acc x
    simp only [Bool.false_eq_true, if_false]
    rw [iALoop_inner_eq, add_assoc]

/-- With identically zero Jacobians every accumulated term vanishes, so the
information matrix built by the loop is the zero matrix. -/
theorem iALoop_of_zero {E D N : Nat} (b : Bool)
    (W : Matrix (Fin E) (Fin E) ℚ) :
    iALoop b W (fun _ => (0 : Matrix (Fin N) (Fin D) ℚ)) = 0 := by
  cases b
  · rw [iALoop_mat_eq]; simp
  · rw [iALoop_vec_eq]; simp

/-- Embedded `np.linalg.inv` returns the Mathlib inverse on an invertible
matrix. -/
theorem npInv_ok {n : Nat} (A : Matrix (Fin n) (Fin n) ℚ) (h : A.det ≠ 0) :
    npInv A = Except.ok A⁻¹ := by
  unfold npInv
  rw [if_neg h, Matrix.inv_def, Ring.inverse_eq_inv']

/-- Embedded `np.linalg.inv` raises on an exactly singular matrix. -/
theorem npInv_err {n : Nat} (A : Matrix (Fin n) (Fin n) ℚ) (h : A.det = 0) :
    npInv A = Except.error NpErr.singularMatrix := by
  unfold npInv
  rw [if_pos h]

/-- Reading back entry `(i, j)` of a row-major flattened matrix. -/
theorem matFlatten_getD {a b : Nat} (M : Matrix (Fin a) (Fin b) ℚ)
    (i : Fin a) (j : Fin b) :
    (matFlatten M).getD (i.val * b + j.val) 0 = M i j := by
  have hb : 0 < b := j.pos
  have hidx : i.val * b + j.val < a * b := by
    calc i.val * b + j.val < i.val * b + b := by omega
    _ = (i.val + 1) * b := by ring
    _ ≤ a * b := Nat.mul_le_mul_right b i.isLt
  have h1 : (i.val * b + j.val) / b = i.val := by
    rw [Nat.add_comm, Nat.add_mul_div_right _ _ hb,
      Nat.div_eq_of_lt j.isLt, Nat.zero_add]
  have h2 : (i.val * b + j.val) % b = j.val := by
    rw [Nat.add_comm, Nat.add_mul_mod_self_right, Nat.mod_eq_of_lt j.isLt]
  unfold matFlatten
  rw [List.getD_eq_getElem?_getD, List.getElem?_map, List.getElem?_range hidx]
  simp [h1, h2, i.isLt, j.isLt]

/-- Storing `np.linalg.inv(iA)` through the `Sigma` setter succeeds and
stores exactly that matrix. -/
theorem sigmaSetter_roundtrip {D : Nat} (M : Matrix (Fin D) (Fin D) ℚ) :
    sigmaSetter D (matToPyVal M) = Except.ok M := by
  have h : sigmaSetter D (matToPyVal M)
      = if [D, D] = [D, D] then Except.ok (pyValToMat D (matFlatten M))
        else Except.error NpErr.assertionError := rfl
  rw [h, if_pos rfl]
  congr 1
  funext i j
  exact matFlatten_getD M i j

/-- A successful `compute_param_covar` stores the computed covariance. -/
theorem computeRun_ok {E D : Nat} {X : Type} (st : AnalyticState E D X)
    (Xdata : List X) (noise : NoiseModel E) (S : Matrix (Fin D) (Fin D) ℚ)
    (h : computeParamCovar st.call Xdata noise = Except.ok S) :
    computeRun st Xdata noise = (none, { st with sigma := some S }) := by
  unfold computeRun
  rw [h]
  simp [sigmaSetter_roundtrip]

/-- A failing `compute_param_covar` propagates the exception and leaves the
object unchanged. -/
theorem computeRun_err {E D : Nat} {X : Type} (st : AnalyticState E D X)
    (Xdata : List X) (noise : NoiseModel E) (e : NpErr)
    (h : computeParamCovar st.call Xdata noise = Except.error e) :
    computeRun st Xdata noise = (some e, st) := by
  unfold computeRun
  rw [h]

/-- A loop body that never raises maps the list through its pure part. -/
theorem mapExcept_ok {α β : Type} (f : α → Except NpErr β) (g : α → β)
    (hf : ∀ x, f x = Except.ok (g x)) (l : List α) :
    mapExcept f l = Except.ok (l.map g) := by
  induction l with
  | nil => rfl
  | cons a as ih => simp [mapExcept, hf, ih]

/-- With a set covariance, `predict` returns the stacked means together with
the clamped per-point propagated covariances. -/
theorem analyticPredict_some {E D : Nat} {X : Type}
    (call : X → (Fin E → ℚ) × Matrix (Fin E) (Fin D) ℚ)
    (Sg : Matrix (Fin D) (Fin D) ℚ) (xnew : List X) :
    analyticPredict (AnalyticState.mk call (some Sg)) xnew
    = Except.ok (predMeans call xnew,
        xnew.map fun x => matToLists (clampDiag (sRaw call Sg x))) := by
  unfold analyticPredict
  rw [mapExcept_ok _ (fun x => clampDiag (sRaw call Sg x)) (fun _ => rfl)]
  simp [List.map_map, Function.comp]

/-! ## Claims -/

/-- C7: passing a plain scalar noise variance `v` to `compute_param_covar`
produces exactly the same behaviour — same stored covariance, same errors —
as passing the length-`E` vector whose entries all equal `v`, because the
code broadcasts the scalar to that vector before doing anything else. -/
theorem C7_scalar_noise_broadcast {E D : Nat} {X : Type}
    (st : AnalyticState E D X) (Xdata : List X) (v : ℚ) :
    computeRun st Xdata (NoiseModel.scalar v)
    = computeRun st Xdata (NoiseModel.vec (fun _ => v)) := rfl

/-- C4: the second-order extension hooks `d2_mu_d_p2`, `d_s2_d_p` and
`d2_s2_d_p2` do NOT raise: each returns the `NotImplementedError` class as an
ordinary value for every argument, a non-error return that looks like
success.  This contradicts the claim (and the spec's stated intent) that
they must fail loudly; the spec itself flags the `return` as a latent
defect, so the code is at fault. -/
theorem C4_hooks_return_instead_of_raising :
    d2_mu_d_p2 () () = HookOutcome.returned PyExcClass.notImplementedError
    ∧ d_s2_d_p () () = HookOutcome.returned PyExcClass.notImplementedError
    ∧ d2_s2_d_p2 () () = HookOutcome.returned PyExcClass.notImplementedError
    ∧ (∀ c, d2_mu_d_p2 () () ≠ HookOutcome.raised c)
    ∧ (∀ c, d_s2_d_p () () ≠ HookOutcome.raised c)
    ∧ (∀ c, d2_s2_d_p2 () () ≠ HookOutcome.raised c) := by
  refine ⟨rfl, rfl, rfl, ?_, ?_, ?_⟩ <;>
    intro c <;> simp [d2_mu_d_p2, d_s2_d_p, d2_s2_d_p2]

/-- C10: after `set_kernels` with two non-`None` kernel classes, the
`kern_p` getter returns the value stored by the `kern_x` setter (the
`_kern_x` attribute), so `kern_p` and `kern_x` agree even when the two
arguments were distinct; and on a fresh model where only the `kern_p`
setter has run, reading `kern_p` raises `AttributeError`. -/
theorem C10_kern_p_getter_reads_kern_x (Kc : Type) (st : VanillaGPState Kc)
    (a b : Kc) :
    kern_p_get (set_kernels st (some a) (some b)) = Except.ok (some a)
    ∧ kern_x_get (set_kernels st (some a) (some b)) = some a
    ∧ kern_p_get (kern_p_set (freshVanilla Kc) (some b))
        = Except.error PyAttrErr.attributeError :=
  ⟨rfl, rfl, rfl⟩

/-- C2 (counterexample): a freshly constructed `Analytic` marginaliser does
NOT fail on every query list — on the empty list the covariance loop never
runs, and `predict` silently returns a pair of empty arrays instead of
raising. -/
theorem C2_counterexample_empty_query :
    analyticPredict (AnalyticState.mk callU none) ([] : List Unit)
      = Except.ok ([], [])
    ∧ ∀ er, analyticPredict (AnalyticState.mk callU none) ([] : List Unit)
        ≠ Except.error er := by
  have h0 : analyticPredict (AnalyticState.mk callU none) ([] : List Unit)
      = Except.ok ([], []) := rfl
  refine ⟨h0, fun er h => ?_⟩
  rw [h0] at h
  exact Except.noConfusion h

/-- C2 (amended): on a marginaliser whose covariance was never set, `predict`
on any NON-EMPTY query list fails loudly — with the `TypeError` numpy raises
for `np.matmul(None, ...)` — and never returns a value; on the empty list it
returns empty arrays without touching the unset covariance. -/
theorem C2_predict_before_covariance_fails {E D : Nat} {X : Type}
    (st : AnalyticState E D X) (hs : st.sigma = none)
    (xnew : List X) (hne : xnew ≠ []) :
    analyticPredict st xnew = Except.error NpErr.typeError := by
  cases xnew with
  | nil => exact absurd rfl hne
  | cons x xs => simp [analyticPredict, mapExcept, hs]

/-- C2 (witness): the amended theorem applied to a concrete fresh
marginaliser and the one-point query list. -/
theorem C2_predict_before_covariance_fails_witness :
    analyticPredict (AnalyticState.mk callU none) [()]
      = Except.error NpErr.typeError :=
  C2_predict_before_covariance_fails (AnalyticState.mk callU none) rfl [()]
    (by simp)

/-- C5: with a set covariance, `predict` returns per-point covariances whose
diagonal entries have all been replaced by `max(1e-15, ·)`, so every
per-point per-output variance is at least `1e-15`. -/
theorem C5_variance_floor {E D : Nat} {X : Type}
    (call : X → (Fin E → ℚ) × Matrix (Fin E) (Fin D) ℚ)
    (Sg : Matrix (Fin D) (Fin D) ℚ) (xnew : List X) :
    analyticPredict (AnalyticState.mk call (some Sg)) xnew
      = Except.ok (predMeans call xnew,
          xnew.map fun x => matToLists (clampDiag (sRaw call Sg x)))
    ∧ ∀ (x : X) (e : Fin E),
        (1 : ℚ) / 10 ^ 15 ≤ clampDiag (sRaw call Sg x) e e := by
  refine ⟨analyticPredict_some call Sg xnew, fun x e => ?_⟩
  unfold clampDiag
  rw [if_pos rfl]
  exact le_max_left _ _

/-- C6: for a symmetric parameter covariance, each per-point propagated
covariance `J · Σ · Jᵀ` returned by `predict` is symmetric, and the diagonal
clamp touches only diagonal entries, so the clamped covariance is symmetric
as well. -/
theorem C6_propagated_covariance_symmetric {E D : Nat} {X : Type}
    (call : X → (Fin E → ℚ) × Matrix (Fin E) (Fin D) ℚ)
    (Sg : Matrix (Fin D) (Fin D) ℚ) (hsym : Sgᵀ = Sg) (xnew : List X) :
    analyticPredict (AnalyticState.mk call (some Sg)) xnew
      = Except.ok (predMeans call xnew,
          xnew.map fun x => matToLists (clampDiag (sRaw call Sg x)))
    ∧ (∀ x : X, (sRaw call Sg x)ᵀ = sRaw call Sg x)
    ∧ (∀ x : X, (clampDiag (sRaw call Sg x))ᵀ = clampDiag (sRaw call Sg x)) := by
  have hraw : ∀ x : X, (sRaw call Sg x)ᵀ = sRaw call Sg x := by
    intro x
    unfold sRaw
    rw [Matrix.transpose_mul, Matrix.transpose_mul, Matrix.transpose_transpose,
      hsym, Matrix.mul_assoc]
  refine ⟨analyticPredict_some call Sg xnew, hraw, fun x => ?_⟩
  funext e1 e2
  have hentry : sRaw call Sg x e2 e1 = sRaw call Sg x e1 e2 := by
    have h := congrFun (congrFun (hraw x) e1) e2
    rwa [Matrix.transpose_apply] at h
  show clampDiag (sRaw call Sg x) e2 e1 = clampDiag (sRaw call Sg x) e1 e2
  unfold clampDiag
  by_cases h : e1 = e2
  · subst h; rfl
  · rw [if_neg (Ne.symm h), if_neg h, hentry]

/-- Unfolding `compute_param_covar` on a vector noise model. -/
theorem computeParamCovar_vec {E D : Nat} {X : Type}
    (call : X → (Fin E → ℚ) × Matrix (Fin E) (Fin D) ℚ) (Xdata : List X)
    (v : Fin E → ℚ) :
    computeParamCovar call Xdata (NoiseModel.vec v)
    = (if Xdata.length = 0 then Except.error NpErr.assertionError
       else npInv (iALoop true (Matrix.diagonal fun e => 1 / v e)
         (dmuStack call Xdata))) := rfl

/-- Unfolding `compute_param_covar` on a matrix noise model. -/
theorem computeParamCovar_mat {E D : Nat} {X : Type}
    (call : X → (Fin E → ℚ) × Matrix (Fin E) (Fin D) ℚ) (Xdata : List X)
    (V : Matrix (Fin E) (Fin E) ℚ) :
    computeParamCovar call Xdata (NoiseModel.mat V)
    = (match npInv V with
       | Except.error e => Except.error e
       | Except.ok W =>
         if Xdata.length = 0 then Except.error NpErr.assertionError
         else npInv (iALoop false W (dmuStack call Xdata))) := rfl

/-- The vector-noise loop result, with the diagonal inverse-noise weights
written out, is the claim's cross-term-free sum. -/
theorem iALoop_vec_spec {E D : Nat} {X : Type}
    (call : X → (Fin E → ℚ) × Matrix (Fin E) (Fin D) ℚ) (Xdata : List X)
    (v : Fin E → ℚ) :
    iALoop true (Matrix.diagonal fun e => 1 / v e) (dmuStack call Xdata)
    = iAvecSpec call Xdata v := by
  rw [iALoop_vec_eq]
  exact Finset.sum_congr rfl fun e _ => by rw [Matrix.diagonal_apply_eq]

/-- The matrix-noise loop result is the claim's diagonal-plus-guarded-cross
sum. -/
theorem iALoop_mat_spec {E D : Nat} {X : Type}
    (call : X → (Fin E → ℚ) × Matrix (Fin E) (Fin D) ℚ) (Xdata : List X)
    (W : Matrix (Fin E) (Fin E) ℚ) :
    iALoop false W (dmuStack call Xdata) = iAmatSpec call Xdata W :=
  iALoop_mat_eq W (dmuStack call Xdata)

/-- C1: `compute_param_covar` assembles the information matrix exactly as
claimed.  With a vector noise model the loop produces
`Σ_e (1/var_e) · dmu[e]ᵀ·dmu[e]` and no cross-output terms; with a full
matrix noise model it additionally adds `w[e1,e2] · dmu[e1]ᵀ·dmu[e2]` and
`w[e2,e1] · dmu[e2]ᵀ·dmu[e1]` for every pair `e1 < e2` with non-zero
off-diagonal inverse-noise weight `w[e1,e2]`; in either case, when the
assembled matrix is invertible, the stored covariance is its inverse. -/
theorem C1_information_matrix_assembly {E D : Nat} {X : Type}
    (st : AnalyticState E D X) (Xdata : List X) (v : Fin E → ℚ)
    (V : Matrix (Fin E) (Fin E) ℚ) :
    iALoop true (Matrix.diagonal fun e => 1 / v e) (dmuStack st.call Xdata)
      = iAvecSpec st.call Xdata v
    ∧ (∀ W, iALoop false W (dmuStack st.call Xdata)
        = iAmatSpec st.call Xdata W)
    ∧ (Xdata ≠ [] → (iAvecSpec st.call Xdata v).det ≠ 0 →
        computeRun st Xdata (NoiseModel.vec v)
          = (none, { st with sigma := some (iAvecSpec st.call Xdata v)⁻¹ }))
    ∧ (Xdata ≠ [] → V.det ≠ 0 → (iAmatSpec st.call Xdata V⁻¹).det ≠ 0 →
        computeRun st Xdata (NoiseModel.mat V)
          = (none,
             { st with sigma := some (iAmatSpec st.call Xdata V⁻¹)⁻¹ })) := by
  refine ⟨iALoop_vec_spec st.call Xdata v, fun W => iALoop_mat_spec st.call Xdata W,
    fun hne hdet => ?_, fun hne hV hdet => ?_⟩
  · refine computeRun_ok st Xdata _ _ ?_
    rw [computeParamCovar_vec,
      if_neg (fun hl => hne (List.length_eq_zero.mp hl)),
      iALoop_vec_spec, npInv_ok _ hdet]
  · refine computeRun_ok st Xdata _ _ ?_
    rw [computeParamCovar_mat, npInv_ok V hV]
    show (if Xdata.length = 0 then Except.error NpErr.assertionError
          else npInv (iALoop false V⁻¹ (dmuStack st.call Xdata))) = _
    rw [if_neg (fun hl => hne (List.length_eq_zero.mp hl)),
      iALoop_mat_spec, npInv_ok _ hdet]

/-- Concrete evaluation: the vector-noise information matrix of the
one-point, unit-Jacobian model is the `1 × 1` identity. -/
theorem iAvecSpec_callU_eq :
    iAvecSpec callU [()] (fun _ => 1) = fun _ _ => (1 : ℚ) := by
  funext i j
  simp [iAvecSpec, dmuStack, callU, Matrix.sum_apply, Matrix.smul_apply,
    Matrix.mul_apply, Matrix.transpose_apply, Fin.sum_univ_one]

/-- The concrete vector-noise information matrix is invertible. -/
theorem iAvecSpec_callU_det :
    (iAvecSpec callU [()] fun _ => (1 : ℚ)).det ≠ 0 := by
  rw [iAvecSpec_callU_eq, Matrix.det_fin_one]
  norm_num

/-- Concrete evaluation: the matrix-noise information matrix of the
one-point, unit-Jacobian model with identity noise is the `1 × 1`
identity. -/
theorem iAmatSpec_callU_eq :
    iAmatSpec callU [()] ((1 : Matrix (Fin 1) (Fin 1) ℚ)⁻¹)
    = fun _ _ => (1 : ℚ) := by
  rw [inv_one]
  funext i j
  simp [iAmatSpec, dmuStack, callU, Matrix.sum_apply, Matrix.smul_apply,
    Matrix.mul_apply, Matrix.transpose_apply, Fin.sum_univ_one,
    Finset.sum_filter, Matrix.one_apply]

/-- The concrete matrix-noise information matrix is invertible. -/
theorem iAmatSpec_callU_det :
    (iAmatSpec callU [()] ((1 : Matrix (Fin 1) (Fin 1) ℚ)⁻¹)).det ≠ 0 := by
  rw [iAmatSpec_callU_eq, Matrix.det_fin_one]
  norm_num

/-- C1 (witness): the assembly theorem applied to the concrete one-point,
unit-Jacobian model with unit vector noise and identity matrix noise. -/
theorem C1_information_matrix_assembly_witness :
    computeRun (AnalyticState.mk callU none) [()] (NoiseModel.vec fun _ => 1)
      = (none, AnalyticState.mk callU
          (some (iAvecSpec callU [()] fun _ => (1 : ℚ))⁻¹))
    ∧ computeRun (AnalyticState.mk callU none) [()] (NoiseModel.mat 1)
      = (none, AnalyticState.mk callU
          (some (iAmatSpec callU [()] ((1 : Matrix (Fin 1) (Fin 1) ℚ)⁻¹))⁻¹)) := by
  have h := C1_information_matrix_assembly (AnalyticState.mk callU none) [()]
    (fun _ => 1) 1
  exact ⟨h.2.2.1 (by simp) iAvecSpec_callU_det,
    h.2.2.2 (by simp) (by rw [Matrix.det_one]; norm_num) iAmatSpec_callU_det⟩

/-- C3 (counterexample): the claim fails at the edges of its quantifier.  On
an empty training set (all training Jacobians zero, vacuously) the code
fails with the `assert dmu.ndim == 3` `AssertionError`, not a singular-matrix
error; and with zero parameters (`D = 0`, information matrix `0 × 0`,
which is not singular) it does not fail at all and happily stores a
covariance. -/
theorem C3_counterexample :
    (computeRun (AnalyticState.mk callU none) ([] : List Unit)
        (NoiseModel.vec fun _ => 1)
      = (some NpErr.assertionError, AnalyticState.mk callU none)
     ∧ NpErr.assertionError ≠ NpErr.singularMatrix)
    ∧ ((computeRun (AnalyticState.mk callD0 none) [()]
          (NoiseModel.vec fun _ => 1)).1 = none
     ∧ ((computeRun (AnalyticState.mk callD0 none) [()]
          (NoiseModel.vec fun _ => 1)).2.sigma).isSome = true) := by
  have hdet0 : (iALoop true (Matrix.diagonal fun _ : Fin 1 => 1 / (1 : ℚ))
      (dmuStack callD0 [()])).det ≠ 0 := by
    rw [Matrix.det_isEmpty]
    norm_num
  have hcpc : computeParamCovar callD0 [()] (NoiseModel.vec fun _ => 1)
      = Except.ok (iALoop true (Matrix.diagonal fun _ : Fin 1 => 1 / (1 : ℚ))
          (dmuStack callD0 [()]))⁻¹ := by
    rw [computeParamCovar_vec, if_neg (by simp), npInv_ok _ hdet0]
  have hrun := computeRun_ok (AnalyticState.mk callD0 none) [()]
    (NoiseModel.vec fun _ => 1) _ hcpc
  refine ⟨⟨rfl, by simp⟩, ?_, ?_⟩
  · rw [hrun]
  · rw [hrun]
    rfl

/-- C3 (amended): on every NON-EMPTY training set, for a model with at least
one parameter whose Jacobian at the parameter mean is zero at every training
point, `compute_param_covar` fails with the explicit singular-matrix error
raised by `np.linalg.inv` — whatever the noise model — and the marginaliser,
including any previously stored covariance, is left unchanged. -/
theorem C3_zero_jacobian_singular {E D : Nat} {X : Type}
    (st : AnalyticState E D X) (Xdata : List X) (noise : NoiseModel E)
    (hne : Xdata ≠ []) (hD : 0 < D)
    (hzero : ∀ x ∈ Xdata, (st.call x).2 = 0) :
    computeRun st Xdata noise = (some NpErr.singularMatrix, st) := by
  have hlen : ¬ Xdata.length = 0 := fun hl => hne (List.length_eq_zero.mp hl)
  have hdmu : dmuStack st.call Xdata
      = fun _ => (0 : Matrix (Fin Xdata.length) (Fin D) ℚ) := by
    funext e n d
    show (st.call (Xdata.get n)).2 e d = 0
    rw [hzero (Xdata.get n) (Xdata.get_mem n.1 n.2)]
    rfl
  have hiA : ∀ (b : Bool) (W : Matrix (Fin E) (Fin E) ℚ),
      iALoop b W (dmuStack st.call Xdata)
        = (0 : Matrix (Fin D) (Fin D) ℚ) := by
    intro b W
    rw [hdmu, iALoop_of_zero]
  have hdet : (0 : Matrix (Fin D) (Fin D) ℚ).det = 0 :=
    Matrix.det_zero ⟨⟨0, hD⟩⟩
  apply computeRun_err
  cases noise with
  | scalar v =>
    rw [show computeParamCovar st.call Xdata (NoiseModel.scalar v)
        = computeParamCovar st.call Xdata (NoiseModel.vec fun _ => v) from rfl,
      computeParamCovar_vec, if_neg hlen, hiA, npInv_err _ hdet]
  | vec v =>
    rw [computeParamCovar_vec, if_neg hlen, hiA, npInv_err _ hdet]
  | mat V =>
    rw [computeParamCovar_mat]
    by_cases hV : V.det = 0
    · rw [npInv_err V hV]
    · rw [npInv_ok V hV]
      show (if Xdata.length = 0 then Except.error NpErr.assertionError
            else npInv (iALoop false V⁻¹ (dmuStack st.call Xdata)))
          = Except.error NpErr.singularMatrix
      rw [if_neg hlen, hiA, npInv_err _ hdet]

/-- C3 (witness): the amended theorem applied to a concrete one-point
training set and the concrete zero-Jacobian model. -/
theorem C3_zero_jacobian_singular_witness :
    computeRun (AnalyticState.mk callZ none) [()] (NoiseModel.vec fun _ => 1)
      = (some NpErr.singularMatrix, AnalyticState.mk callZ none) :=
  C3_zero_jacobian_singular (AnalyticState.mk callZ none) [()]
    (NoiseModel.vec fun _ => 1) (by simp) (by norm_num) (fun _ _ => rfl)

/-- C8: shape guarantees.  The `Sigma` setter accepts exactly the numpy
arrays of shape `(D, D)` and rejects everything else with an assertion
error; a successful `compute_param_covar` leaves a stored `D × D` covariance
that itself passes the setter's validation; and `predict` over `N` query
points returns a mean list of `N` rows of length `E` and a covariance list
of `N` matrices of `E` rows of length `E`. -/
theorem C8_shape_invariants {X : Type} (E D : Nat)
    (st : AnalyticState E D X) (Xdata : List X) (noise : NoiseModel E)
    (call : X → (Fin E → ℚ) × Matrix (Fin E) (Fin D) ℚ)
    (Sg : Matrix (Fin D) (Fin D) ℚ) (xnew : List X) :
    (∀ v : PyVal, (∃ M, sigmaSetter D v = Except.ok M)
        ↔ ∃ data, v = PyVal.npArray [D, D] data)
    ∧ (∀ st2, computeRun st Xdata noise = (none, st2) →
        ∃ S : Matrix (Fin D) (Fin D) ℚ, st2.sigma = some S
          ∧ sigmaSetter D (matToPyVal S) = Except.ok S)
    ∧ (∃ M S, analyticPredict (AnalyticState.mk call (some Sg)) xnew
          = Except.ok (M, S)
        ∧ M.length = xnew.length
        ∧ (∀ r ∈ M, r.length = E)
        ∧ S.length = xnew.length
        ∧ (∀ T ∈ S, T.length = E ∧ ∀ r ∈ T, r.length = E)) := by
  refine ⟨fun v => ⟨?_, ?_⟩, fun st2 h => ?_, ?_⟩
  · rintro ⟨M, hM⟩
    cases v with
    | npArray shape data =>
      by_cases hs : shape = [D, D]
      · exact ⟨data, by rw [hs]⟩
      · rw [show sigmaSetter D (PyVal.npArray shape data)
            = (if shape = [D, D] then Except.ok (pyValToMat D data)
               else Except.error NpErr.assertionError) from rfl,
          if_neg hs] at hM
        exact Except.noConfusion hM
    | notAnArray => exact Except.noConfusion hM
  · rintro ⟨data, rfl⟩
    refine ⟨pyValToMat D data, ?_⟩
    rw [show sigmaSetter D (PyVal.npArray [D, D] data)
        = (if [D, D] = [D, D] then Except.ok (pyValToMat D data)
           else Except.error NpErr.assertionError) from rfl, if_pos rfl]
  · cases hc : computeParamCovar st.call Xdata noise with
    | error e =>
      rw [computeRun_err st Xdata noise e hc] at h
      exact Option.noConfusion (congrArg Prod.fst h)
    | ok S =>
      rw [computeRun_ok st Xdata noise S hc] at h
      refine ⟨S, ?_, sigmaSetter_roundtrip S⟩
      have h2 : ({ st with sigma := some S } : AnalyticState E D X) = st2 :=
        congrArg Prod.snd h
      rw [← h2]
  · refine ⟨predMeans call xnew,
      xnew.map fun x => matToLists (clampDiag (sRaw call Sg x)),
      analyticPredict_some call Sg xnew, ?_, ?_, ?_, ?_⟩
    · simp [predMeans]
    · intro r hr
      simp only [predMeans, List.mem_map] at hr
      obtain ⟨x, -, rfl⟩ := hr
      simp
    · simp
    · intro T hT
      simp only [List.mem_map] at hT
      obtain ⟨x, -, rfl⟩ := hT
      refine ⟨by simp [matToLists], fun r hr => ?_⟩
      simp only [matToLists, List.mem_map] at hr
      obtain ⟨e1, -, rfl⟩ := hr
      simp

/-- C8 (witness): a concrete successful covariance computation whose stored
matrix passes the setter's shape validation, via the shape theorem. -/
theorem C8_shape_invariants_witness :
    ∃ S : Matrix (Fin 1) (Fin 1) ℚ,
      (AnalyticState.mk callU
        (some (iAvecSpec callU [()] fun _ => (1 : ℚ))⁻¹)).sigma = some S
      ∧ sigmaSetter 1 (matToPyVal S) = Except.ok S := by
  have hcpc : computeParamCovar callU [()] (NoiseModel.vec fun _ => 1)
      = Except.ok (iAvecSpec callU [()] fun _ => (1 : ℚ))⁻¹ := by
    rw [computeParamCovar_vec, if_neg (by simp), iALoop_vec_spec,
      npInv_ok _ iAvecSpec_callU_det]
  have h := C8_shape_invariants 1 1 (AnalyticState.mk callU none) [()]
    (NoiseModel.vec fun _ => 1) callU 1 [()]
  exact h.2.1 _ (computeRun_ok (AnalyticState.mk callU none) [()]
    (NoiseModel.vec fun _ => 1) _ hcpc)

/-- C6 (witness): the symmetry theorem applied to a concrete model function
and the identity parameter covariance. -/
theorem C6_propagated_covariance_symmetric_witness :
    analyticPredict (AnalyticState.mk callU (some 1)) [()]
      = Except.ok (predMeans callU [()],
          [()].map fun x => matToLists (clampDiag (sRaw callU 1 x)))
    ∧ (∀ x : Unit, (sRaw callU 1 x)ᵀ = sRaw callU 1 x)
    ∧ (∀ x : Unit, (clampDiag (sRaw callU 1 x))ᵀ = clampDiag (sRaw callU 1 x)) :=
  C6_propagated_covariance_symmetric callU 1 Matrix.transpose_one [()]

/-- Derivative of `a / (α + β·s)²` where the affine denominator is non-zero
at the point of interest. -/
theorem hasDerivAt_const_div_affine_sq (a α β t : ℝ) (h : α + β * t ≠ 0) :
    HasDerivAt (fun s => a / (α + β * s) ^ 2)
      (-2 * a * β / (α + β * t) ^ 3) t := by
  have h1 : HasDerivAt (fun s : ℝ => α + β * s) β t := by
    simpa using ((hasDerivAt_id t).const_mul β).const_add α
  have h2 := h1.pow 2
  have h4 := (hasDerivAt_const t a).div h2 (pow_ne_zero 2 h)
  convert h4 using 1
  field_simp
  ring

/-- Derivative of `(a - b / s) / d` at a non-zero point. -/
theorem hasDerivAt_sub_inv_div (a b d t : ℝ) (ht : t ≠ 0) :
    HasDerivAt (fun s => (a - b / s) / d) (b / t ^ 2 / d) t := by
  have h1 : HasDerivAt (fun s : ℝ => b / s) (-(b / t ^ 2)) t := by
    simpa [div_eq_mul_inv, mul_neg] using (hasDerivAt_inv ht).const_mul b
  have h2 := (h1.const_sub a).div_const d
  simpa [neg_neg] using h2

/-- C9: for candidate model `M5` with parameters
`p = [1704, 4.25, 0.241, 444.6, 1.7e-5]` at design point `x = [20, 225, 7]`,
each of the five entries of the Jacobian row returned by the `grad=True`
call is the true partial derivative of the returned value with respect to
that parameter — hence a convergent finite-difference approximation of the
value matches the row, in particular to relative tolerance `1e-4`. -/
theorem C9_M5_jacobian_exact (i : Fin 5) :
    HasDerivAt (fun t => (M5call x0BFF (Function.update p0BFF i t)).1 0)
      ((M5call x0BFF p0BFF).2 0 i) (p0BFF i) := by
  have g0 : HasDerivAt
      (fun t => (M5call x0BFF (Function.update p0BFF 0 t)).1 0)
      ((M5call x0BFF p0BFF).2 0 0) (p0BFF 0) := by
    have h := hasDerivAt_const_div_affine_sq
      (20 * 225 ^ 2 - 7 / (17 / 1000000))
      (17 / 4 * 225 + 241 / 1000 * 20 * 225 + 2223 / 5 * 7) 1 1704
      (by norm_num)
    have hf : (fun t => (M5call x0BFF (Function.update p0BFF 0 t)).1 0)
        = fun s : ℝ => (20 * 225 ^ 2 - 7 / (17 / 1000000)) /
            ((17 / 4 * 225 + 241 / 1000 * 20 * 225 + 2223 / 5 * 7) + 1 * s) ^ 2 := by
      funext s
      show (20 * 225 ^ 2 - 7 / (17 / 1000000 : ℝ)) /
          (s + 17 / 4 * 225 + 241 / 1000 * 20 * 225 + 2223 / 5 * 7) ^ 2 = _
      ring
    have hval : (M5call x0BFF p0BFF).2 0 0
        = -2 * (20 * 225 ^ 2 - 7 / (17 / 1000000 : ℝ)) * 1 /
            ((17 / 4 * 225 + 241 / 1000 * 20 * 225 + 2223 / 5 * 7) + 1 * 1704) ^ 3 := by
      show -2 * ((20 * 225 ^ 2 - 7 / (17 / 1000000 : ℝ)) /
            (1704 + 17 / 4 * 225 + 241 / 1000 * 20 * 225 + 2223 / 5 * 7) ^ 2) /
          (1704 + 17 / 4 * 225 + 241 / 1000 * 20 * 225 + 2223 / 5 * 7) = _
      norm_num
    rw [hf, hval]
    exact h
  have g1 : HasDerivAt
      (fun t => (M5call x0BFF (Function.update p0BFF 1 t)).1 0)
      ((M5call x0BFF p0BFF).2 0 1) (p0BFF 1) := by
    have h := hasDerivAt_const_div_affine_sq
      (20 * 225 ^ 2 - 7 / (17 / 1000000))
      (1704 + 241 / 1000 * 20 * 225 + 2223 / 5 * 7) 225 (17 / 4)
      (by norm_num)
    have hf : (fun t => (M5call x0BFF (Function.update p0BFF 1 t)).1 0)
        = fun s : ℝ => (20 * 225 ^ 2 - 7 / (17 / 1000000)) /
            ((1704 + 241 / 1000 * 20 * 225 + 2223 / 5 * 7) + 225 * s) ^ 2 := by
      funext s
      show (20 * 225 ^ 2 - 7 / (17 / 1000000 : ℝ)) /
          (1704 + s * 225 + 241 / 1000 * 20 * 225 + 2223 / 5 * 7) ^ 2 = _
      ring
    have hval : (M5call x0BFF p0BFF).2 0 1
        = -2 * (20 * 225 ^ 2 - 7 / (17 / 1000000 : ℝ)) * 225 /
            ((1704 + 241 / 1000 * 20 * 225 + 2223 / 5 * 7) + 225 * (17 / 4)) ^ 3 := by
      show -2 * ((20 * 225 ^ 2 - 7 / (17 / 1000000 : ℝ)) /
            (1704 + 17 / 4 * 225 + 241 / 1000 * 20 * 225 + 2223 / 5 * 7) ^ 2) /
          (1704 + 17 / 4 * 225 + 241 / 1000 * 20 * 225 + 2223 / 5 * 7) * 225 = _
      norm_num
    rw [hf, hval]
    exact h
  have g2 : HasDerivAt
      (fun t => (M5call x0BFF (Function.update p0BFF 2 t)).1 0)
      ((M5call x0BFF p0BFF).2 0 2) (p0BFF 2) := by
    have h := hasDerivAt_const_div_affine_sq
      (20 * 225 ^ 2 - 7 / (17 / 1000000))
      (1704 + 17 / 4 * 225 + 2223 / 5 * 7) (20 * 225) (241 / 1000)
      (by norm_num)
    have hf : (fun t => (M5call x0BFF (Function.update p0BFF 2 t)).1 0)
        = fun s : ℝ => (20 * 225 ^ 2 - 7 / (17 / 1000000)) /
            ((1704 + 17 / 4 * 225 + 2223 / 5 * 7) + 20 * 225 * s) ^ 2 := by
      funext s
      show (20 * 225 ^ 2 - 7 / (17 / 1000000 : ℝ)) /
          (1704 + 17 / 4 * 225 + s * 20 * 225 + 2223 / 5 * 7) ^ 2 = _
      ring
    have hval : (M5call x0BFF p0BFF).2 0 2
        = -2 * (20 * 225 ^ 2 - 7 / (17 / 1000000 : ℝ)) * (20 * 225) /
            ((1704 + 17 / 4 * 225 + 2223 / 5 * 7) + 20 * 225 * (241 / 1000)) ^ 3 := by
      show -2 * ((20 * 225 ^ 2 - 7 / (17 / 1000000 : ℝ)) /
            (1704 + 17 / 4 * 225 + 241 / 1000 * 20 * 225 + 2223 / 5 * 7) ^ 2) /
          (1704 + 17 / 4 * 225 + 241 / 1000 * 20 * 225 + 2223 / 5 * 7) * 20 * 225 = _
      norm_num
    rw [hf, hval]
    exact h
  have g3 : HasDerivAt
      (fun t => (M5call x0BFF (Function.update p0BFF 3 t)).1 0)
      ((M5call x0BFF p0BFF).2 0 3) (p0BFF 3) := by
    have h := hasDerivAt_const_div_affine_sq
      (20 * 225 ^ 2 - 7 / (17 / 1000000))
      (1704 + 17 / 4 * 225 + 241 / 1000 * 20 * 225) 7 (2223 / 5)
      (by norm_num)
    have hf : (fun t => (M5call x0BFF (Function.update p0BFF 3 t)).1 0)
        = fun s : ℝ => (20 * 225 ^ 2 - 7 / (17 / 1000000)) /
            ((1704 + 17 / 4 * 225 + 241 / 1000 * 20 * 225) + 7 * s) ^ 2 := by
      funext s
      show (20 * 225 ^ 2 - 7 / (17 / 1000000 : ℝ)) /
          (1704 + 17 / 4 * 225 + 241 / 1000 * 20 * 225 + s * 7) ^ 2 = _
      ring
    have hval : (M5call x0BFF p0BFF).2 0 3
        = -2 * (20 * 225 ^ 2 - 7 / (17 / 1000000 : ℝ)) * 7 /
            ((1704 + 17 / 4 * 225 + 241 / 1000 * 20 * 225) + 7 * (2223 / 5)) ^ 3 := by
      show -2 * ((20 * 225 ^ 2 - 7 / (17 / 1000000 : ℝ)) /
            (1704 + 17 / 4 * 225 + 241 / 1000 * 20 * 225 + 2223 / 5 * 7) ^ 2) /
          (1704 + 17 / 4 * 225 + 241 / 1000 * 20 * 225 + 2223 / 5 * 7) * 7 = _
      norm_num
    rw [hf, hval]
    exact h
  have g4 : HasDerivAt
      (fun t => (M5call x0BFF (Function.update p0BFF 4 t)).1 0)
      ((M5call x0BFF p0BFF).2 0 4) (p0BFF 4) := by
    have h := hasDerivAt_sub_inv_div (20 * 225 ^ 2) 7
      ((1704 + 17 / 4 * 225 + 241 / 1000 * 20 * 225 + 2223 / 5 * 7 : ℝ) ^ 2)
      (17 / 1000000) (by norm_num)
    have hf : (fun t => (M5call x0BFF (Function.update p0BFF 4 t)).1 0)
        = fun s : ℝ => (20 * 225 ^ 2 - 7 / s) /
            ((1704 + 17 / 4 * 225 + 241 / 1000 * 20 * 225 + 2223 / 5 * 7 : ℝ) ^ 2) := by
      funext s
      show (20 * 225 ^ 2 - 7 / s : ℝ) /
          (1704 + 17 / 4 * 225 + 241 / 1000 * 20 * 225 + 2223 / 5 * 7) ^ 2 = _
      rfl
    have hval : (M5call x0BFF p0BFF).2 0 4
        = 7 / (17 / 1000000 : ℝ) ^ 2 /
            ((1704 + 17 / 4 * 225 + 241 / 1000 * 20 * 225 + 2223 / 5 * 7 : ℝ) ^ 2) := by
      show (7 : ℝ) / (17 / 1000000 *
            (1704 + 17 / 4 * 225 + 241 / 1000 * 20 * 225 + 2223 / 5 * 7)) ^ 2 = _
      norm_num
    rw [hf, hval]
    exact h
  fin_cases i
  · exact g0
  · exact g1
  · exact g2
  · exact g3
  · exact g4

end GPdoemd
